import Mathlib

/-!
Verification of the CompLaB 3-D capacity-constrained biomass
overflow-redistribution engine.

The definitions below are a shallow embedding of the cellular-automaton
processors in `src/complab3d_processors_part1.hh` (pushExcessBiomass3D,
halfPushExcessBiomass3D, pullExcessBiomass3D), the mask/age processors in
`src/complab3d_processors_part2.hh` (updateLocalMaskNtotalLattices3D,
updateAgeDistance3D), and the CA convergence loop in `src/complab.cpp`
(lines 877-910).

Modelling conventions:
* `T = double` is embedded as `ℚ` (exact arithmetic; the specification's
  floating-point tolerances appear as the explicit parameters `thrd`
  and `cthrd`).
* A lattice cell stores a density; Palabos populations `g[0..6]` encode a
  density `ρ` as `g[0]=(ρ-1)/4, g[i]=(ρ-1)/8`, so `computeDensity` after
  `setPopulations` returns exactly the encoded value, and adding
  `v/4, v/8...` to the populations adds exactly `v` to the density.  The
  embedding therefore works directly with densities.
* The lattice vector `ptr_ca_lattices` (complab.cpp lines 567-578) is
  [per-species biomass lattices, per-species copy lattices,
  totalbFilmLattice, maskLattice, ageLattice]; a `CAState` holds one field
  per lattice role.  Note that the lattice at slot `length-1`, which the
  push processors read through the local name `distLloc`, is bound to the
  age lattice by complab.cpp line 577; the separate distance lattice is
  only used by `updateAgeDistance3D` (`ageNdistance_lattices`, lines
  600-603).
* The staging direction tag stored via `setOmega` on the copy lattices is
  the `sdir` field.
* `std::random_shuffle` / `std::rand()` draws are modelled by an explicit
  oracle `Rng` supplied per cell.
* `exit(EXIT_FAILURE)` is modelled by `Except Unit`.
-/

namespace CompLaB

/-- A 3-D integer grid coordinate (absolute coordinates; all lattices are
modelled as aligned, i.e. every relative displacement is zero). -/
abbrev Pos := ℤ × ℤ × ℤ

/-- Componentwise addition of a position and an offset. -/
def padd (p d : Pos) : Pos := (p.1 + d.1, p.2.1 + d.2.1, p.2.2 + d.2.2)

/-- Run-wide configuration consumed by the redistribution engine:
`Bmax` = `max_bMassRho`, `thrd` = the global tolerance `thrd`,
`cthrd` = `COMPLAB_THRD` (1e-14 in the source), grid extents, the
boundary gap (`bdryGap`, passed as 1 by complab.cpp), and the type ids
`solid` (= `no_dynamics`), `bb` (= `bounce_back`) and the pore ids. -/
structure Params where
  Bmax : ℚ
  thrd : ℚ
  cthrd : ℚ
  nx : ℤ
  ny : ℤ
  nz : ℤ
  bdryGap : ℤ
  solid : ℤ
  bb : ℤ
  pore : List ℤ

/-- The state of all lattices handed to the CA processors, for `ns`
biomass species: per-species biomass densities (`bio`), per-species copy
(staging) densities (`copy`) with their direction tags (`sdir`), the
total-biomass lattice (`total`), the mask lattice (`mask`), the age
lattice (`age`) and the distance lattice (`dist`). -/
structure CAState (ns : ℕ) where
  bio : Pos → Fin ns → ℚ
  copy : Pos → Fin ns → ℚ
  sdir : Pos → Fin ns → ℤ
  total : Pos → ℚ
  mask : Pos → ℤ
  age : Pos → ℤ
  dist : Pos → ℤ

/-- A worker's owned sub-domain (the Palabos `Box3D domain` of one block). -/
structure Box where
  x0 : ℤ
  x1 : ℤ
  y0 : ℤ
  y1 : ℤ
  z0 : ℤ
  z1 : ℤ

/-- The integers `a, a+1, ..., b` in order. -/
def intRange (a b : ℤ) : List ℤ :=
  (List.range (b + 1 - a).toNat).map (fun i => a + (i : ℤ))

/-- The cells of a box in sweep order (x outermost, z innermost), matching
the triple loop of every processor. -/
def Box.cells (d : Box) : List Pos :=
  (intRange d.x0 d.x1).flatMap fun x =>
    (intRange d.y0 d.y1).flatMap fun y =>
      (intRange d.z0 d.z1).map fun z => (x, y, z)

/-- `true` iff `m` is one of the pore type ids (the `for`-loop over
`pore` with early `break` in the source). -/
def isPore (P : Params) (m : ℤ) : Bool := P.pore.contains m

/-- Face-neighbor offsets of an over-capacity cell in the push
processors, in source order +x, -x, +y, -y, +z, -z, dropping directions
that cross the fixed outer boundary; x uses the `bdryGap` planes, y and z
use the true grid edge (part1.hh lines 260-273). -/
def candidates (P : Params) (a : Pos) : List Pos :=
  (if a.1 = P.nx - 1 - P.bdryGap then [] else [((1 : ℤ), (0 : ℤ), (0 : ℤ))]) ++
  (if a.1 = P.bdryGap then [] else [((-1 : ℤ), (0 : ℤ), (0 : ℤ))]) ++
  (if a.2.1 = P.ny - 1 then [] else [((0 : ℤ), (1 : ℤ), (0 : ℤ))]) ++
  (if a.2.1 = 0 then [] else [((0 : ℤ), (-1 : ℤ), (0 : ℤ))]) ++
  (if a.2.2 = P.nz - 1 then [] else [((0 : ℤ), (0 : ℤ), (1 : ℤ))]) ++
  (if a.2.2 = 0 then [] else [((0 : ℤ), (0 : ℤ), (-1 : ℤ))])

/-- Face-neighbor offsets used by the mask and age processors, which test
the true grid edge in all three axes (part2.hh lines 94-107, 514-527). -/
def candidatesNoGap (P : Params) (a : Pos) : List Pos :=
  (if a.1 = P.nx - 1 then [] else [((1 : ℤ), (0 : ℤ), (0 : ℤ))]) ++
  (if a.1 = 0 then [] else [((-1 : ℤ), (0 : ℤ), (0 : ℤ))]) ++
  (if a.2.1 = P.ny - 1 then [] else [((0 : ℤ), (1 : ℤ), (0 : ℤ))]) ++
  (if a.2.1 = 0 then [] else [((0 : ℤ), (-1 : ℤ), (0 : ℤ))]) ++
  (if a.2.2 = P.nz - 1 then [] else [((0 : ℤ), (0 : ℤ), (1 : ℤ))]) ++
  (if a.2.2 = 0 then [] else [((0 : ℤ), (0 : ℤ), (-1 : ℤ))])

/-- The MPI sub-domain boundary indicator `bdry_dir`
(part1.hh lines 276-284): nonzero only for cells on a face of the owned
box whose absolute x lies inside the `bdryGap` band, with x faces taking
priority over y over z. -/
def bdryDir (P : Params) (dom : Box) (p : Pos) : ℤ :=
  if P.bdryGap ≤ p.1 ∧ p.1 ≤ P.nx - 1 - P.bdryGap then
    if p.1 = dom.x1 then 1
    else if p.1 = dom.x0 then 2
    else if p.2.1 = dom.y1 then 3
    else if p.2.1 = dom.y0 then 4
    else if p.2.2 = dom.z1 then 5
    else if p.2.2 = dom.z0 then 6
    else 0
  else 0

/-- The push direction indicator `push_dir` for a chosen neighbor offset
(part1.hh lines 318-327): nonzero iff the offset points across the face
named by `bdry`. -/
def pushDir (bdry : ℤ) (del : Pos) : ℤ :=
  if del.1 = 1 ∧ bdry = 1 then 1
  else if del.1 = -1 ∧ bdry = 2 then 2
  else if del.2.1 = 1 ∧ bdry = 3 then 3
  else if del.2.1 = -1 ∧ bdry = 4 then 4
  else if del.2.2 = 1 ∧ bdry = 5 then 5
  else if del.2.2 = -1 ∧ bdry = 6 then 6
  else 0

/-- `nbrsLocMask` (part1.hh lines 287-296): the candidate offsets whose
neighbor mask is neither `bb` nor `solid`, paired with that mask. -/
def eligNbrs (P : Params) (s : CAState ns) (p : Pos) : List (Pos × ℤ) :=
  (candidates P p).filterMap fun del =>
    let m := s.mask (padd p del)
    if m ≠ P.bb ∧ m ≠ P.solid then some (del, m) else none

/-- One species-proportional transfer of the primary push pass
(part1.hh lines 332-354): for each species, `shove = bio/bMt * amt`; if
`shove > thrd` the source is debited and the amount is either staged into
the copy lattice with tag `pdir` (cross-partition) or credited directly
to the neighbor.  The per-species loop touches only species-`j` data in
iteration `j`, so it is modelled as a simultaneous update. -/
def primXfer (P : Params) (p del : Pos) (pdir : ℤ) (m amt : ℚ)
    (s : CAState ns) : CAState ns :=
  { s with
    bio := fun r j =>
      let shove := s.bio p j / m * amt
      if shove > P.thrd then
        s.bio r j - (if r = p then shove else 0) +
          (if pdir = 0 ∧ r = padd p del then shove else 0)
      else s.bio r j
    copy := fun r j =>
      let shove := s.bio p j / m * amt
      if shove > P.thrd ∧ pdir > 0 ∧ r = p then shove else s.copy r j
    sdir := fun r j =>
      let shove := s.bio p j / m * amt
      if shove > P.thrd ∧ pdir > 0 ∧ r = p then pdir else s.sdir r j }

/-- One species-proportional transfer of the fallback pass
(part1.hh lines 399-419, 636-656): identical to `primXfer` except that
there is no `thrd` guard on the debit, the stage overwrite, or the
credit. -/
def fbXfer (P : Params) (p del : Pos) (pdir : ℤ) (m amt : ℚ)
    (s : CAState ns) : CAState ns :=
  { s with
    bio := fun r j =>
      let shove := s.bio p j / m * amt
      s.bio r j - (if r = p then shove else 0) +
        (if pdir = 0 ∧ r = padd p del then shove else 0)
    copy := fun r j =>
      if pdir > 0 ∧ r = p then s.bio p j / m * amt else s.copy r j
    sdir := fun r j =>
      if pdir > 0 ∧ r = p then pdir else s.sdir r j }

/-- Loop state of the primary redistribution pass: the lattices, the
remaining excess `bMd`, the running source total `bMt`, and the
completion flag `chk`. -/
structure PAcc (ns : ℕ) where
  s : CAState ns
  bMd : ℚ
  bMt : ℚ
  chk : Bool

/-- One iteration of the primary pass over the shuffled candidate list
(part1.hh lines 306-359): pick candidate `ordr[iT]` (index 0 when only
one candidate exists), treat `bb`/`solid`/pore neighbors as having total
0, and if the resulting total is below `Bmax` transfer
`min(bMd, Bmax - total)` species-proportionally. -/
def primStep (P : Params) (p : Pos) (nbrs : List (Pos × ℤ)) (ordr : List ℕ)
    (bdry : ℤ) (acc : PAcc ns) (iT : ℕ) : PAcc ns :=
  if acc.chk then acc
  else
    let randLoc := if nbrs.length > 1 then ordr.getD iT 0 else 0
    match nbrs.get? randLoc with
    | none => acc
    | some (del, nm) =>
      let nbrbMt : ℚ :=
        if nm = P.bb ∨ nm = P.solid ∨ isPore P nm then 0
        else acc.s.total (padd p del)
      if nbrbMt < P.Bmax then
        let pdir := pushDir bdry del
        let hold := P.Bmax - nbrbMt
        if acc.bMd > hold then
          { s := primXfer P p del pdir acc.bMt hold acc.s,
            bMd := acc.bMd - hold, bMt := acc.bMt - hold, chk := false }
        else
          { s := primXfer P p del pdir acc.bMt acc.bMd acc.s,
            bMd := 0, bMt := acc.bMt - acc.bMd, chk := true }
      else acc

/-- The whole primary pass: fold `primStep` over `iT = 0 .. nbrs.length-1`. -/
def primAll (P : Params) (p : Pos) (nbrs : List (Pos × ℤ)) (ordr : List ℕ)
    (bdry : ℤ) (s : CAState ns) (bMd bMt : ℚ) : PAcc ns :=
  (List.range nbrs.length).foldl (primStep P p nbrs ordr bdry)
    ⟨s, bMd, bMt, false⟩

/-- Random-number oracle for one cell: `ordr` models the
`std::random_shuffle`d index array of the primary pass, `r1` and `r2`
the two potential `std::rand()` draws of the fallback pass. -/
structure Rng where
  ordr : List ℕ
  r1 : ℕ
  r2 : ℕ

/-- Fallback recipient of the full push (part1.hh lines 368-388): among
the eligible neighbors, those whose value in the lattice at slot
`length-1` (the age lattice, per complab.cpp line 577) is strictly
smaller than the source's; a random one of them if several, the single
one if unique, else a uniformly random eligible neighbor. -/
def fbChoiceF (P : Params) (s : CAState ns) (p : Pos)
    (nbrs : List (Pos × ℤ)) (r1 r2 : ℕ) : Pos :=
  let tmp1 := nbrs.filterMap fun pr =>
    if s.age p > s.age (padd p pr.1) then some pr.1 else none
  if tmp1.length > 1 then tmp1.getD (r1 % tmp1.length) (0, 0, 0)
  else if tmp1.length = 1 then tmp1.getD 0 (0, 0, 0)
  else
    let randLoc := if nbrs.length > 1 then r2 % nbrs.length else 0
    (nbrs.getD randLoc ((0, 0, 0), 0)).1

/-- Fallback recipient of the half push (part1.hh lines 606-625):
identical except the filter keeps neighbors with value less than OR
EQUAL to the source's. -/
def fbChoiceH (P : Params) (s : CAState ns) (p : Pos)
    (nbrs : List (Pos × ℤ)) (r1 r2 : ℕ) : Pos :=
  let tmp1 := nbrs.filterMap fun pr =>
    if s.age p ≥ s.age (padd p pr.1) then some pr.1 else none
  if tmp1.length > 1 then tmp1.getD (r1 % tmp1.length) (0, 0, 0)
  else if tmp1.length = 1 then tmp1.getD 0 (0, 0, 0)
  else
    let randLoc := if nbrs.length > 1 then r2 % nbrs.length else 0
    (nbrs.getD randLoc ((0, 0, 0), 0)).1

/-- `pushExcessBiomass3D::process` restricted to one cell
(part1.hh lines 236-427): fire on a non-`bb`, non-`solid` cell whose
total exceeds `Bmax` by more than `thrd`; abort when no eligible
neighbor exists; otherwise run the primary pass and, if excess remains,
the fallback pass, which sends the whole remainder to one neighbor. -/
def pushCellF (P : Params) (dom : Box) (R : Rng) (s : CAState ns)
    (p : Pos) : Except Unit (CAState ns) :=
  let m := s.mask p
  if m ≠ P.bb ∧ m ≠ P.solid then
    let bMt := s.total p
    if bMt > P.Bmax then
      let bMd := bMt - P.Bmax
      if bMd > P.thrd then
        let bdry := bdryDir P dom p
        let nbrs := eligNbrs P s p
        if nbrs.length = 0 then .error ()
        else
          let acc := primAll P p nbrs R.ordr bdry s bMd bMt
          if acc.chk then .ok acc.s
          else
            let del := fbChoiceF P acc.s p nbrs R.r1 R.r2
            .ok (fbXfer P p del (pushDir bdry del) acc.bMt acc.bMd acc.s)
      else .ok s
    else .ok s
  else .ok s

/-- `halfPushExcessBiomass3D::process` restricted to one cell
(part1.hh lines 464-662): the source additionally must not be a pore
cell, the attempted amount is `bMt * 0.5` with no `thrd` gate, the
fallback filter uses `≥`, and the fallback transfer loop runs even when
the primary pass finished (then with offset 0 and remaining excess 0). -/
def halfPushCellF (P : Params) (dom : Box) (R : Rng) (s : CAState ns)
    (p : Pos) : Except Unit (CAState ns) :=
  let m := s.mask p
  if m ≠ P.bb ∧ m ≠ P.solid ∧ ¬ isPore P m then
    let bMt := s.total p
    if bMt > P.Bmax then
      let bMd := bMt * (1 / 2)
      let bdry := bdryDir P dom p
      let nbrs := eligNbrs P s p
      if nbrs.length = 0 then .error ()
      else
        let acc := primAll P p nbrs R.ordr bdry s bMd bMt
        if acc.chk then .ok (fbXfer P p (0, 0, 0) 0 acc.bMt acc.bMd acc.s)
        else
          let del := fbChoiceH P acc.s p nbrs R.r1 R.r2
          .ok (fbXfer P p del (pushDir bdry del) acc.bMt acc.bMd acc.s)
    else .ok s
  else .ok s

/-- One full-push sweep of a worker's box, visiting cells in loop order;
`exit(EXIT_FAILURE)` aborts the whole sweep. -/
def pushSweepF (P : Params) (dom : Box) (R : Pos → Rng) (s : CAState ns) :
    Except Unit (CAState ns) :=
  dom.cells.foldlM (fun t p => pushCellF P dom (R p) t p) s

/-- One half-push sweep of a worker's box. -/
def halfPushSweepF (P : Params) (dom : Box) (R : Pos → Rng)
    (s : CAState ns) : Except Unit (CAState ns) :=
  dom.cells.foldlM (fun t p => halfPushCellF P dom (R p) t p) s

/-- `r` lies in the y- and z-range of the box. -/
def inYZ (dom : Box) (r : Pos) : Prop :=
  dom.y0 ≤ r.2.1 ∧ r.2.1 ≤ dom.y1 ∧ dom.z0 ≤ r.2.2 ∧ r.2.2 ≤ dom.z1

/-- `r` lies in the x- and and z-range of the box. -/
def inXZ (dom : Box) (r : Pos) : Prop :=
  dom.x0 ≤ r.1 ∧ r.1 ≤ dom.x1 ∧ dom.z0 ≤ r.2.2 ∧ r.2.2 ≤ dom.z1

/-- `r` lies in the x- and y-range of the box. -/
def inXY (dom : Box) (r : Pos) : Prop :=
  dom.x0 ≤ r.1 ∧ r.1 ≤ dom.x1 ∧ dom.y0 ≤ r.2.1 ∧ r.2.1 ≤ dom.y1

instance (dom : Box) (r : Pos) : Decidable (inYZ dom r) := by
  unfold inYZ; infer_instance
instance (dom : Box) (r : Pos) : Decidable (inXZ dom r) := by
  unfold inXZ; infer_instance
instance (dom : Box) (r : Pos) : Decidable (inXY dom r) := by
  unfold inXY; infer_instance

/-- `pullExcessBiomass3D::process` (part1.hh lines 699-844) on one
worker's box: for each of the six faces, when the face does not coincide
with the fixed outer boundary, every cell of that face reads the copy
lattice of the halo cell just outside the face and, if its direction tag
names this face and the staged density exceeds `thrd`, credits the
staged density to its own biomass.  The staged lattices are only read
and the credited cells are pairwise distinct per face, so the pass is a
simultaneous update; a cell lying on several faces of a degenerate box
receives each face's credit, as in the source. -/
def pullSweep (P : Params) (dom : Box) (s : CAState ns) : CAState ns :=
  { s with
    bio := fun r j =>
      s.bio r j +
      (if P.bdryGap ≤ dom.x0 ∧ r.1 = dom.x0 ∧ inYZ dom r ∧
          s.sdir (padd r (-1, 0, 0)) j = 1 ∧
          s.copy (padd r (-1, 0, 0)) j > P.thrd then
        s.copy (padd r (-1, 0, 0)) j else 0) +
      (if dom.x1 ≤ P.nx - 1 - P.bdryGap ∧ r.1 = dom.x1 ∧ inYZ dom r ∧
          s.sdir (padd r (1, 0, 0)) j = 2 ∧
          s.copy (padd r (1, 0, 0)) j > P.thrd then
        s.copy (padd r (1, 0, 0)) j else 0) +
      (if 0 < dom.y0 ∧ r.2.1 = dom.y0 ∧ inXZ dom r ∧
          s.sdir (padd r (0, -1, 0)) j = 3 ∧
          s.copy (padd r (0, -1, 0)) j > P.thrd then
        s.copy (padd r (0, -1, 0)) j else 0) +
      (if dom.y1 < P.ny - 1 ∧ r.2.1 = dom.y1 ∧ inXZ dom r ∧
          s.sdir (padd r (0, 1, 0)) j = 4 ∧
          s.copy (padd r (0, 1, 0)) j > P.thrd then
        s.copy (padd r (0, 1, 0)) j else 0) +
      (if 0 < dom.z0 ∧ r.2.2 = dom.z0 ∧ inXY dom r ∧
          s.sdir (padd r (0, 0, -1)) j = 5 ∧
          s.copy (padd r (0, 0, -1)) j > P.thrd then
        s.copy (padd r (0, 0, -1)) j else 0) +
      (if dom.z1 < P.nz - 1 ∧ r.2.2 = dom.z1 ∧ inXY dom r ∧
          s.sdir (padd r (0, 0, 1)) j = 6 ∧
          s.copy (padd r (0, 0, 1)) j > P.thrd then
        s.copy (padd r (0, 0, 1)) j else 0) }

/-- `updateAgeDistance3D::process` restricted to one cell
(part2.hh lines 495-567): a cell with total biomass above `COMPLAB_THRD`
gets a new age — 1 if its age is 0; 2 if its age is 1, it is at
capacity, and no positive-distance neighbor still has age 0; otherwise
age+1 provided every positive-distance neighbor has age at least the
cell's AND total at capacity (within `COMPLAB_THRD`), else unchanged. -/
def updateAgeCell (P : Params) (s : CAState ns) (p : Pos) : CAState ns :=
  if s.total p > P.cthrd then
    let del := (candidatesNoGap P p).filter fun d => s.dist (padd p d) > 0
    let age := s.age p
    let write : ℤ → CAState ns := fun v =>
      { s with age := fun r => if r = p then v else s.age r }
    if age = 0 then write 1
    else if age = 1 ∧ s.total p - P.Bmax > -P.cthrd then
      if del.all (fun d => !(decide (s.dist (padd p d) > 0) &&
          decide (s.age (padd p d) = 0))) then
        write 2
      else s
    else
      if del.all (fun d => decide (s.age (padd p d) ≥ age) &&
          decide (s.total (padd p d) - P.Bmax > -P.cthrd)) then
        write (age + 1)
      else s
  else s

/-- One pass of `updateAgeDistance3D` over a box, in loop order. -/
def ageSweep (P : Params) (dom : Box) (s : CAState ns) : CAState ns :=
  dom.cells.foldl (updateAgeCell P) s

/-- `updateLocalMaskNtotalLattices3D::process` restricted to one cell
(part2.hh lines 55-139), with `bioT j = bio[j][0]` the biofilm type id
of species `j` and `thrB = bMassFrac * maxbMassRho` the reclassification
threshold.  `bmass` and `newmask` accumulate over species whose biomass
exceeds `COMPLAB_THRD`; the total lattice is refreshed when it drifted;
a biofilm cell falling below the threshold becomes the first pore type,
preferring a pore type used by a face neighbor when several pore types
exist; a pore cell reaching the threshold gets mask `newmask` when that
is positive and otherwise the process aborts. -/
def updateMaskCell (P : Params) (bioT : Fin ns → ℤ) (thrB : ℚ)
    (s : CAState ns) (p : Pos) : Except Unit (CAState ns) :=
  let mask := s.mask p
  if mask ≠ P.bb ∧ mask ≠ P.solid then
    let bMt := s.total p
    let bmass : ℚ := (List.finRange ns).foldl
      (fun a j => if s.bio p j > P.cthrd then a + s.bio p j else a) 0
    let newmask : ℤ := (List.finRange ns).foldl
      (fun a j => if s.bio p j > P.cthrd then a + bioT j else a) 0
    let s1 := if |bmass - bMt| > P.cthrd then
        { s with total := fun r => if r = p then bmass else s.total r }
      else s
    let writeMask : CAState ns → ℤ → CAState ns := fun t v =>
      { t with mask := fun r => if r = p then v else t.mask r }
    if isPore P mask = false ∧ bmass < thrB then
      let nm0 := P.pore.headD 0
      let nm := if P.pore.length > 1 then
          ((candidatesNoGap P p).findSome? fun d =>
            let nbrmask := s.mask (padd p d)
            if nbrmask ≠ P.bb ∧ nbrmask ≠ P.solid ∧ isPore P nbrmask then
              some nbrmask
            else none).getD nm0
        else nm0
      .ok (writeMask s1 nm)
    else if isPore P mask = true ∧ bmass ≥ thrB then
      if newmask > 0 then .ok (writeMask s1 newmask) else .error ()
    else .ok s1
  else .ok s

/-- The grid-wide maximum of the total-biomass lattice over a cell list
(`computeMax(*computeDensity(totalbFilmLattice))`). -/
def maxTotal (cells : List Pos) (s : CAState ns) : ℚ :=
  cells.foldl (fun a p => max a (s.total p)) 0

/-- The CA biomass-expansion convergence loop (complab.cpp lines
882-907): while the maximum total exceeds `Bmax` by more than `thrd`,
run one push+pull+mask cycle (`step`); running out of fuel models the
fatal 2000-sweep cap. -/
def caLoop (P : Params) (cells : List Pos) (step : CAState ns → CAState ns) :
    ℕ → CAState ns → Option (CAState ns)
  | 0, _ => none
  | (fuel + 1), s =>
    if maxTotal cells s - P.Bmax > P.thrd then
      caLoop P cells step fuel (step s)
    else some s

/-- Total biomass summed over a list of cells and all species. -/
def bioSum (cells : List Pos) (s : CAState ns) : ℚ :=
  cells.foldl (fun a p => a + ∑ j : Fin ns, s.bio p j) 0

/-- Total biomass of one cell summed over species. -/
def srcSum (s : CAState ns) (p : Pos) : ℚ := ∑ j : Fin ns, s.bio p j

/-! Concrete single-species states used to evaluate the engine on explicit
inputs.  `mkS1` builds a one-species state with empty staging lattices. -/

/-- One-species state with clean copy lattices and zero direction tags. -/
def mkS1 (bio total : Pos → ℚ) (mask age dist : Pos → ℤ) : CAState 1 :=
  { bio := fun p _ => bio p
    copy := fun _ _ => 0
    sdir := fun _ _ => 0
    total := total
    mask := mask
    age := age
    dist := dist }

/-- Rng oracle for cells with at most one eligible neighbor (all draws
unused or zero). -/
def rng0 : Pos → Rng := fun _ => ⟨[], 0, 0⟩

/-! Claim C1 scenario: a 4x1x1 grid split into two worker boxes
[0,1] and [2,3]; the cell (1,0,0) on worker A's +x face holds biomass 2
(capacity 1) and its only candidate neighbor (2,0,0), owned by worker B,
holds 1/4.  All parameters as in complab.cpp (`bdryGap` 1,
`thrd` 1e-12). -/

def C1P : Params := ⟨1, 1 / 1000000000000, 0, 4, 1, 1, 1, 0, 1, [2]⟩

def C1A : Box := ⟨0, 1, 0, 0, 0, 0⟩

def C1B : Box := ⟨2, 3, 0, 0, 0, 0⟩

def C1s : CAState 1 :=
  mkS1 (fun p => if p = (1, 0, 0) then 2 else if p = (2, 0, 0) then 1 / 4 else 0)
    (fun p => if p = (1, 0, 0) then 2 else if p = (2, 0, 0) then 1 / 4 else 0)
    (fun p => if p = (1, 0, 0) then 3 else if p = (2, 0, 0) then 3 else 0)
    (fun p => if p = (1, 0, 0) then 2 else if p = (2, 0, 0) then 1 else 0)
    (fun _ => 0)

/-- The non-excluded cells of the C1 grid (all others are Solid). -/
def C1cells : List Pos := [(1, 0, 0), (2, 0, 0)]

/-- One complete push+pull cycle over both workers of the C1 grid. -/
def C1cyc : Except Unit (CAState 1) :=
  (pushSweepF C1P C1A rng0 C1s).bind fun t =>
    (pushSweepF C1P C1B rng0 t).map fun u =>
      pullSweep C1P C1B (pullSweep C1P C1A u)

/-! Claim C2 witness instance: a grid already below capacity. -/

def C2P : Params := ⟨1, 0, 0, 3, 1, 1, 1, 0, 1, [2]⟩

def C2s : CAState 1 :=
  mkS1 (fun _ => 1 / 2) (fun _ => 1 / 2) (fun _ => 3) (fun _ => 0) (fun _ => 0)

def C2cells : List Pos := [(0, 0, 0)]

/-! Claim C3 scenario: a 5x1x1 grid; the over-capacity biofilm cell
(2,0,0) has a Solid neighbor at (1,0,0) and a Pore neighbor at
(3,0,0). -/

def C3P : Params := ⟨1, 1 / 1000000000000, 0, 5, 1, 1, 1, 0, 1, [2]⟩

def C3dom : Box := ⟨0, 4, 0, 0, 0, 0⟩

def C3s : CAState 1 :=
  mkS1 (fun p => if p = (2, 0, 0) then 3 / 2 else 0)
    (fun p => if p = (2, 0, 0) then 3 / 2 else 0)
    (fun p => if p = (2, 0, 0) then 3 else if p = (3, 0, 0) then 2 else 0)
    (fun _ => 0) (fun _ => 0)

/-- The C3 grid after one full-push sweep. -/
def C3res : CAState 1 :=
  (pushSweepF C3P C3dom rng0 C3s).toOption.getD C3s

/-- The C3 grid after one half-push sweep. -/
def C3resH : CAState 1 :=
  (halfPushSweepF C3P C3dom rng0 C3s).toOption.getD C3s

/-! Claim C4 scenario: on a 5x1x1 grid the over-capacity cell (2,0,0)
has two biofilm neighbors, both already at capacity.  The static
distance field makes (3,0,0) STRICTLY CLOSER to the pore than the
source (dist 1 vs 2) and (1,0,0) strictly farther (dist 3), so the
claimed rule's first tier mandates (3,0,0).  The fallback, however,
never reads the distance lattice: it compares the lattice at slot
`length-1` (the age lattice), where the source's value 0 is below both
neighbors' 5, leaving the strict filter empty, and the uniformly random
draw (index 1) hands the excess to (1,0,0). -/

def C4P : Params := ⟨1, 1 / 1000000000000, 0, 5, 1, 1, 1, 0, 1, [2]⟩

def C4dom : Box := ⟨0, 4, 0, 0, 0, 0⟩

def C4s : CAState 1 :=
  mkS1 (fun p => if p = (2, 0, 0) then 3 / 2 else if p = (1, 0, 0) ∨ p = (3, 0, 0) then 1 else 0)
    (fun p => if p = (2, 0, 0) then 3 / 2 else if p = (1, 0, 0) ∨ p = (3, 0, 0) then 1 else 0)
    (fun p => if p = (1, 0, 0) ∨ p = (2, 0, 0) ∨ p = (3, 0, 0) then 3 else 0)
    (fun p => if p = (1, 0, 0) ∨ p = (3, 0, 0) then 5 else 0)
    (fun p => if p = (2, 0, 0) then 2 else if p = (3, 0, 0) then 1
      else if p = (1, 0, 0) then 3 else 0)

/-- C4 oracle: identity shuffle, fallback random draw 1. -/
def C4R : Pos → Rng := fun _ => ⟨[0, 1], 0, 1⟩

/-- Witness data for the amended C4 tier rule: a single candidate with
strictly smaller age value. -/
def C4wn : List (Pos × ℤ) := [((1, 0, 0), 3)]

def C4ws : CAState 1 :=
  mkS1 (fun _ => 0) (fun _ => 0) (fun _ => 3)
    (fun p => if p = (2, 0, 0) then 2 else 0) (fun _ => 0)

/-! Claim C5 scenarios: an over-capacity cell fully enclosed by Pore
cells (no abort), and the spec's starvation scenario of a cell at
1000 x Bmax fully enclosed by Solid cells (abort). -/

def C5P : Params := ⟨1, 1 / 1000000000000, 0, 5, 1, 1, 1, 0, 1, [2]⟩

def C5dom : Box := ⟨0, 4, 0, 0, 0, 0⟩

/-- Over-capacity biofilm cell (2,0,0) whose face neighbors are all
Pore (mask 2). -/
def C5sPore : CAState 1 :=
  mkS1 (fun p => if p = (2, 0, 0) then 3 / 2 else 0)
    (fun p => if p = (2, 0, 0) then 3 / 2 else 0)
    (fun p => if p = (2, 0, 0) then 3 else 2)
    (fun _ => 0) (fun _ => 0)

def C5Pw : Params := ⟨1, 1 / 1000000000000, 0, 5, 3, 3, 1, 0, 1, [2]⟩

def C5domw : Box := ⟨0, 4, 0, 2, 0, 2⟩

/-- Interior cell (2,1,1) at total 1000 x Bmax, every other cell
Solid. -/
def C5sSolid : CAState 1 :=
  mkS1 (fun p => if p = (2, 1, 1) then 1000 else 0)
    (fun p => if p = (2, 1, 1) then 1000 else 0)
    (fun p => if p = (2, 1, 1) then 3 else 0)
    (fun _ => 0) (fun _ => 0)

/-! Claim C6 scenarios on a 3x3x3 grid. -/

def C6P : Params := ⟨1, 0, 1 / 100, 3, 3, 3, 1, 0, 1, [2]⟩

/-- Counterexample state: cell (1,1,1) of age 2 whose only
positive-distance neighbor (2,1,1) has age 5 but total 0 (below
capacity); no neighbor is at capacity. -/
def C6s : CAState 1 :=
  mkS1 (fun p => if p = (1, 1, 1) then 1 / 2 else 0)
    (fun p => if p = (1, 1, 1) then 1 / 2 else 0)
    (fun _ => 3)
    (fun p => if p = (1, 1, 1) then 2 else if p = (2, 1, 1) then 5 else 0)
    (fun p => if p = (2, 1, 1) then 1 else 0)

/-- Witness state: cell (1,1,1) of age 2 whose only positive-distance
neighbor (2,1,1) has age 2 and total at capacity, so it promotes. -/
def C6sw : CAState 1 :=
  mkS1 (fun p => if p = (1, 1, 1) then 2 else if p = (2, 1, 1) then 1 else 0)
    (fun p => if p = (1, 1, 1) then 2 else if p = (2, 1, 1) then 1 else 0)
    (fun _ => 3)
    (fun p => if p = (1, 1, 1) ∨ p = (2, 1, 1) then 2 else 0)
    (fun p => if p = (2, 1, 1) then 1 else 0)

/-! Claim C7 scenario: a two-species grid; the Pore cell (1,1,1)
crosses the reclassification threshold with both species (types 3 and
4) contributing. -/

def C7P : Params := ⟨1, 1 / 1000000000000, 1 / 1000000000000, 3, 3, 3, 1, 0, 1, [2]⟩

/-- Biofilm type ids `bio_dynamics[j][0]` of the two species. -/
def C7bioT : Fin 2 → ℤ := fun j => if j = 0 then 3 else 4

def C7s : CAState 2 :=
  { bio := fun p j => if p = (1, 1, 1) then (if j = 0 then 1 / 2 else 1 / 2) else 0
    copy := fun _ _ => 0
    sdir := fun _ _ => 0
    total := fun p => if p = (1, 1, 1) then 1 else 0
    mask := fun p => if p = (1, 1, 1) then 2 else 0
    age := fun _ => 0
    dist := fun _ => 0 }

/-! Claim C8 witness instance on a 5x1x1 grid: the over-capacity cell
(2,0,0) has one eligible neighbor already at capacity, so the whole
attempted amount goes through the fallback. -/

def C8P : Params := ⟨1, 0, 0, 5, 1, 1, 1, 0, 1, [2]⟩

def C8dom : Box := ⟨0, 4, 0, 0, 0, 0⟩

def C8s : CAState 1 :=
  mkS1 (fun p => if p = (2, 0, 0) then 3 / 2 else if p = (3, 0, 0) then 1 else 0)
    (fun p => if p = (2, 0, 0) then 3 / 2 else if p = (3, 0, 0) then 1 else 0)
    (fun p => if p = (2, 0, 0) ∨ p = (3, 0, 0) then 3 else 0)
    (fun p => if p = (2, 0, 0) then 1 else 0)
    (fun _ => 0)

/-! Claim C9 witness instance: the C3-style grid, where both sweeps
succeed and move mass. -/

def C9P : Params := ⟨1, 1 / 1000000000000, 0, 5, 1, 1, 1, 0, 1, [2]⟩

def C9dom : Box := ⟨0, 4, 0, 0, 0, 0⟩

def C9s : CAState 1 :=
  mkS1 (fun p => if p = (2, 0, 0) then 3 / 2 else 0)
    (fun p => if p = (2, 0, 0) then 3 / 2 else 0)
    (fun p => if p = (2, 0, 0) then 3 else if p = (3, 0, 0) then 2 else 0)
    (fun _ => 0) (fun _ => 0)

/-- The C9 grid after one full-push sweep. -/
def C9res : CAState 1 :=
  (pushSweepF C9P C9dom rng0 C9s).toOption.getD C9s

/-- The C9 grid after one half-push sweep. -/
def C9resH : CAState 1 :=
  (halfPushSweepF C9P C9dom rng0 C9s).toOption.getD C9s

/-- Frame property of the push processors, matching
`getTypeOfModification` (part1.hh lines 435-444): relative to the state
`s` a push leaves the total, mask, age and distance lattices untouched,
and writes biomass only into cells whose mask is neither `bb` nor
`solid`. -/
def PushInv (P : Params) (s t : CAState ns) : Prop :=
  t.total = s.total ∧ t.mask = s.mask ∧ t.age = s.age ∧ t.dist = s.dist ∧
  ∀ q, (s.mask q = P.bb ∨ s.mask q = P.solid) → ∀ j, t.bio q j = s.bio q j

/-- Loop invariant of the primary pass at source `p`, relative to the
target post-shed total `B` (= `Bmax` for the full push, half the
starting total for the half push): the source biomass stays nonnegative
and sums to the running `bMt`, which always exceeds the remaining
excess `bMd` by exactly `B`. -/
def SumInv (p : Pos) (B : ℚ) (acc : PAcc ns) : Prop :=
  (∀ j, 0 ≤ acc.s.bio p j) ∧ srcSum acc.s p = acc.bMt ∧
  acc.bMt = B + acc.bMd ∧ 0 ≤ acc.bMd ∧ (acc.chk = true → acc.bMd = 0)

/-! Helper lemmas. -/

lemma mem_ite_nil_singleton {d v : Pos} {c : Prop} [Decidable c]
    (h : d ∈ (if c then ([] : List Pos) else [v])) : d = v := by
  split at h
  · simp at h
  · simpa using h

lemma mem_candidates_cases {P : Params} {a d : Pos} (hd : d ∈ candidates P a) :
    d = (1, 0, 0) ∨ d = (-1, 0, 0) ∨ d = (0, 1, 0) ∨ d = (0, -1, 0) ∨
      d = (0, 0, 1) ∨ d = (0, 0, -1) := by
  simp only [candidates, List.mem_append] at hd
  rcases hd with ((((h | h) | h) | h) | h) | h
  · exact Or.inl (mem_ite_nil_singleton h)
  · exact Or.inr (Or.inl (mem_ite_nil_singleton h))
  · exact Or.inr (Or.inr (Or.inl (mem_ite_nil_singleton h)))
  · exact Or.inr (Or.inr (Or.inr (Or.inl (mem_ite_nil_singleton h))))
  · exact Or.inr (Or.inr (Or.inr (Or.inr (Or.inl (mem_ite_nil_singleton h)))))
  · exact Or.inr (Or.inr (Or.inr (Or.inr (Or.inr (mem_ite_nil_singleton h)))))

lemma candidates_padd_ne {P : Params} {a d p : Pos} (hd : d ∈ candidates P a) :
    padd p d ≠ p := by
  have h6 := mem_candidates_cases hd
  intro he
  have h1 : p.1 + d.1 = p.1 := congrArg Prod.fst he
  have h2 : p.2.1 + d.2.1 = p.2.1 := congrArg (fun r : Pos => r.2.1) he
  have h3 : p.2.2 + d.2.2 = p.2.2 := congrArg (fun r : Pos => r.2.2) he
  rcases h6 with h | h | h | h | h | h <;> subst h <;> simp at h1 h2 h3 <;> omega

lemma mem_eligNbrs {P : Params} {s : CAState ns} {p del : Pos} {nm : ℤ}
    (h : (del, nm) ∈ eligNbrs P s p) :
    del ∈ candidates P p ∧ nm = s.mask (padd p del) ∧ nm ≠ P.bb ∧ nm ≠ P.solid := by
  simp only [eligNbrs, List.mem_filterMap] at h
  obtain ⟨d, hd, hif⟩ := h
  by_cases hc : s.mask (padd p d) ≠ P.bb ∧ s.mask (padd p d) ≠ P.solid
  · rw [if_pos hc] at hif
    obtain ⟨h1, h2⟩ := Prod.mk.inj (Option.some.inj hif)
    subst h1
    exact ⟨hd, h2.symm, h2 ▸ hc.1, h2 ▸ hc.2⟩
  · rw [if_neg hc] at hif
    cases hif

lemma getD_mem {α : Type} {l : List α} {n : ℕ} (d : α) (h : n < l.length) :
    l.getD n d ∈ l := by
  rw [List.getD_eq_getElem l d h]
  exact List.getElem_mem h

lemma fbChoiceF_mem {P : Params} {s : CAState ns} {p : Pos}
    {nbrs : List (Pos × ℤ)} {r1 r2 : ℕ} (h : nbrs ≠ []) :
    fbChoiceF P s p nbrs r1 r2 ∈ nbrs.map Prod.fst := by
  unfold fbChoiceF
  have hsub : ∀ x ∈ nbrs.filterMap (fun pr =>
      if s.age p > s.age (padd p pr.1) then some pr.1 else none),
      x ∈ nbrs.map Prod.fst := by
    intro x hx
    simp only [List.mem_filterMap] at hx
    obtain ⟨pr, hpr, hif⟩ := hx
    split at hif
    · exact Option.some.inj hif ▸ List.mem_map_of_mem Prod.fst hpr
    · cases hif
  dsimp only
  split
  · next hlen => exact hsub _ (getD_mem _ (Nat.mod_lt _ (by omega)))
  · split
    · next hlen => exact hsub _ (getD_mem _ (by omega))
    · try dsimp only
      refine List.mem_map_of_mem Prod.fst (getD_mem _ ?_)
      rcases Nat.lt_or_ge 1 nbrs.length with hg | hg
      · rw [if_pos hg]
        exact Nat.mod_lt _ (by omega)
      · rw [if_neg (by omega)]
        have : nbrs.length ≠ 0 := fun h0 => h (List.length_eq_zero.mp h0)
        omega

lemma fbChoiceH_mem {P : Params} {s : CAState ns} {p : Pos}
    {nbrs : List (Pos × ℤ)} {r1 r2 : ℕ} (h : nbrs ≠ []) :
    fbChoiceH P s p nbrs r1 r2 ∈ nbrs.map Prod.fst := by
  unfold fbChoiceH
  have hsub : ∀ x ∈ nbrs.filterMap (fun pr =>
      if s.age p ≥ s.age (padd p pr.1) then some pr.1 else none),
      x ∈ nbrs.map Prod.fst := by
    intro x hx
    simp only [List.mem_filterMap] at hx
    obtain ⟨pr, hpr, hif⟩ := hx
    split at hif
    · exact Option.some.inj hif ▸ List.mem_map_of_mem Prod.fst hpr
    · cases hif
  dsimp only
  split
  · next hlen => exact hsub _ (getD_mem _ (Nat.mod_lt _ (by omega)))
  · split
    · next hlen => exact hsub _ (getD_mem _ (by omega))
    · try dsimp only
      refine List.mem_map_of_mem Prod.fst (getD_mem _ ?_)
      rcases Nat.lt_or_ge 1 nbrs.length with hg | hg
      · rw [if_pos hg]
        exact Nat.mod_lt _ (by omega)
      · rw [if_neg (by omega)]
        have : nbrs.length ≠ 0 := fun h0 => h (List.length_eq_zero.mp h0)
        omega

lemma fbChoiceF_strict {P : Params} {s : CAState ns} {p : Pos}
    {nbrs : List (Pos × ℤ)} {r1 r2 : ℕ}
    (h : nbrs.filterMap (fun pr =>
      if s.age p > s.age (padd p pr.1) then some pr.1 else none) ≠ []) :
    s.age p > s.age (padd p (fbChoiceF P s p nbrs r1 r2)) := by
  have hprop : ∀ x ∈ nbrs.filterMap (fun pr =>
      if s.age p > s.age (padd p pr.1) then some pr.1 else none),
      s.age p > s.age (padd p x) := by
    intro x hx
    simp only [List.mem_filterMap] at hx
    obtain ⟨pr, _, hif⟩ := hx
    split at hif
    · next hcond => exact Option.some.inj hif ▸ hcond
    · cases hif
  unfold fbChoiceF
  try dsimp only
  split
  · next hlen => exact hprop _ (getD_mem _ (Nat.mod_lt _ (by omega)))
  · split
    · next hlen => exact hprop _ (getD_mem _ (by omega))
    · next h1 h2 =>
      exact absurd (by omega : (nbrs.filterMap (fun pr =>
        if s.age p > s.age (padd p pr.1) then some pr.1 else none)).length = 0)
        (fun h0 => h (List.length_eq_zero.mp h0))

lemma fbChoiceH_weak {P : Params} {s : CAState ns} {p : Pos}
    {nbrs : List (Pos × ℤ)} {r1 r2 : ℕ}
    (h : nbrs.filterMap (fun pr =>
      if s.age p ≥ s.age (padd p pr.1) then some pr.1 else none) ≠ []) :
    s.age p ≥ s.age (padd p (fbChoiceH P s p nbrs r1 r2)) := by
  have hprop : ∀ x ∈ nbrs.filterMap (fun pr =>
      if s.age p ≥ s.age (padd p pr.1) then some pr.1 else none),
      s.age p ≥ s.age (padd p x) := by
    intro x hx
    simp only [List.mem_filterMap] at hx
    obtain ⟨pr, _, hif⟩ := hx
    split at hif
    · next hcond => exact Option.some.inj hif ▸ hcond
    · cases hif
  unfold fbChoiceH
  try dsimp only
  split
  · next hlen => exact hprop _ (getD_mem _ (Nat.mod_lt _ (by omega)))
  · split
    · next hlen => exact hprop _ (getD_mem _ (by omega))
    · next h1 h2 =>
      exact absurd (by omega : (nbrs.filterMap (fun pr =>
        if s.age p ≥ s.age (padd p pr.1) then some pr.1 else none)).length = 0)
        (fun h0 => h (List.length_eq_zero.mp h0))

lemma foldlM_ok_rel {f : CAState ns → Pos → Except Unit (CAState ns)}
    {Q : CAState ns → CAState ns → Prop}
    (hrefl : ∀ s, Q s s)
    (htrans : ∀ a b c, Q a b → Q b c → Q a c)
    (hstep : ∀ s p t, f s p = .ok t → Q s t) :
    ∀ (l : List Pos) (s t : CAState ns), l.foldlM f s = .ok t → Q s t := by
  intro l
  induction l with
  | nil =>
    intro s t h
    simp only [List.foldlM_nil] at h
    cases h
    exact hrefl s
  | cons p l ih =>
    intro s t h
    rw [List.foldlM_cons] at h
    cases hf : f s p with
    | error e => rw [hf] at h; cases h
    | ok u =>
      rw [hf] at h
      exact htrans s u t (hstep s p u hf) (ih u t h)

lemma foldl_rel {f : CAState ns → Pos → CAState ns}
    {Q : CAState ns → CAState ns → Prop}
    (hrefl : ∀ s, Q s s)
    (htrans : ∀ a b c, Q a b → Q b c → Q a c)
    (hstep : ∀ s p, Q s (f s p)) :
    ∀ (l : List Pos) (s : CAState ns), Q s (l.foldl f s) := by
  intro l
  induction l with
  | nil => intro s; exact hrefl s
  | cons p l ih =>
    intro s
    rw [List.foldl_cons]
    exact htrans s (f s p) _ (hstep s p) (ih (f s p))

lemma init_le_foldl_max {s : CAState ns} :
    ∀ (l : List Pos) (a : ℚ), a ≤ l.foldl (fun a q => max a (s.total q)) a := by
  intro l
  induction l with
  | nil => intro a; exact le_refl a
  | cons q l ih =>
    intro a
    rw [List.foldl_cons]
    exact le_trans (le_max_left a (s.total q)) (ih (max a (s.total q)))

lemma mem_le_foldl_max {s : CAState ns} {p : Pos} :
    ∀ (l : List Pos), p ∈ l →
      ∀ a : ℚ, s.total p ≤ l.foldl (fun a q => max a (s.total q)) a := by
  intro l
  induction l with
  | nil => intro h; cases h
  | cons q l ih =>
    intro hp a
    rw [List.foldl_cons]
    rcases List.mem_cons.mp hp with h | h
    · subst h
      exact le_trans (le_max_right a (s.total p)) (init_le_foldl_max l _)
    · exact ih h _

lemma pushInv_refl (P : Params) (s : CAState ns) : PushInv P s s :=
  ⟨rfl, rfl, rfl, rfl, fun _ _ _ => rfl⟩

lemma pushInv_trans {P : Params} {a b c : CAState ns}
    (h1 : PushInv P a b) (h2 : PushInv P b c) : PushInv P a c := by
  obtain ⟨t1, m1, a1, d1, b1⟩ := h1
  obtain ⟨t2, m2, a2, d2, b2⟩ := h2
  refine ⟨t2.trans t1, m2.trans m1, a2.trans a1, d2.trans d1, fun q hq j => ?_⟩
  have hq2 : b.mask q = P.bb ∨ b.mask q = P.solid := by rw [m1]; exact hq
  rw [b2 q hq2 j, b1 q hq j]

lemma primXfer_bio_other {P : Params} {p del q : Pos} (pdir : ℤ) (m amt : ℚ)
    (s : CAState ns) (hqp : q ≠ p) (hqd : q ≠ padd p del) (j : Fin ns) :
    (primXfer P p del pdir m amt s).bio q j = s.bio q j := by
  have h2 : ¬ (pdir = 0 ∧ q = padd p del) := fun hc => hqd hc.2
  simp only [primXfer, if_neg hqp, if_neg h2]
  split <;> ring

lemma fbXfer_bio_other {P : Params} {p del q : Pos} (pdir : ℤ) (m amt : ℚ)
    (s : CAState ns) (hqp : q ≠ p) (hqd : q ≠ padd p del) (j : Fin ns) :
    (fbXfer P p del pdir m amt s).bio q j = s.bio q j := by
  have h2 : ¬ (pdir = 0 ∧ q = padd p del) := fun hc => hqd hc.2
  simp only [fbXfer, if_neg hqp, if_neg h2]
  ring

lemma primXfer_inv {P : Params} {p del : Pos} {u : CAState ns}
    (pdir : ℤ) (m amt : ℚ)
    (hp : u.mask p ≠ P.bb ∧ u.mask p ≠ P.solid)
    (hd : u.mask (padd p del) ≠ P.bb ∧ u.mask (padd p del) ≠ P.solid) :
    PushInv P u (primXfer P p del pdir m amt u) := by
  refine ⟨rfl, rfl, rfl, rfl, fun q hq j => ?_⟩
  have hqp : q ≠ p := by
    rintro rfl
    rcases hq with h | h
    · exact hp.1 h
    · exact hp.2 h
  have hqd : q ≠ padd p del := by
    rintro rfl
    rcases hq with h | h
    · exact hd.1 h
    · exact hd.2 h
  exact primXfer_bio_other pdir m amt u hqp hqd j

lemma fbXfer_inv {P : Params} {p del : Pos} {u : CAState ns}
    (pdir : ℤ) (m amt : ℚ)
    (hp : u.mask p ≠ P.bb ∧ u.mask p ≠ P.solid)
    (hd : u.mask (padd p del) ≠ P.bb ∧ u.mask (padd p del) ≠ P.solid) :
    PushInv P u (fbXfer P p del pdir m amt u) := by
  refine ⟨rfl, rfl, rfl, rfl, fun q hq j => ?_⟩
  have hqp : q ≠ p := by
    rintro rfl
    rcases hq with h | h
    · exact hp.1 h
    · exact hp.2 h
  have hqd : q ≠ padd p del := by
    rintro rfl
    rcases hq with h | h
    · exact hd.1 h
    · exact hd.2 h
  exact fbXfer_bio_other pdir m amt u hqp hqd j

lemma primStep_inv {P : Params} {p : Pos} {nbrs : List (Pos × ℤ)}
    {ordr : List ℕ} {bdry : ℤ} {s0 : CAState ns}
    (hmp : s0.mask p ≠ P.bb ∧ s0.mask p ≠ P.solid)
    (hnbrs : ∀ pr ∈ nbrs,
      s0.mask (padd p pr.1) ≠ P.bb ∧ s0.mask (padd p pr.1) ≠ P.solid)
    (acc : PAcc ns) (iT : ℕ) (hacc : PushInv P s0 acc.s) :
    PushInv P s0 (primStep P p nbrs ordr bdry acc iT).s := by
  unfold primStep
  split
  · exact hacc
  · dsimp only
    cases hg : nbrs.get? (if nbrs.length > 1 then ordr.getD iT 0 else 0) with
    | none =>
      exact hacc
    | some pr =>
      obtain ⟨del, nm⟩ := pr
      have hmem : (del, nm) ∈ nbrs := List.get?_mem hg
      have hd0 := hnbrs (del, nm) hmem
      have hmask : acc.s.mask = s0.mask := hacc.2.1
      have hp1 : acc.s.mask p ≠ P.bb ∧ acc.s.mask p ≠ P.solid := by
        rw [hmask]; exact hmp
      have hd1 : acc.s.mask (padd p del) ≠ P.bb ∧
          acc.s.mask (padd p del) ≠ P.solid := by
        rw [hmask]; exact hd0
      dsimp only
      split <;> split <;> try split
      all_goals
        first
        | exact pushInv_trans hacc (primXfer_inv _ _ _ hp1 hd1)
        | exact hacc

lemma primAll_fold_inv {P : Params} {p : Pos} {nbrs : List (Pos × ℤ)}
    {ordr : List ℕ} {bdry : ℤ} {s0 : CAState ns}
    (hmp : s0.mask p ≠ P.bb ∧ s0.mask p ≠ P.solid)
    (hnbrs : ∀ pr ∈ nbrs,
      s0.mask (padd p pr.1) ≠ P.bb ∧ s0.mask (padd p pr.1) ≠ P.solid) :
    ∀ (l : List ℕ) (acc : PAcc ns), PushInv P s0 acc.s →
      PushInv P s0 (l.foldl (primStep P p nbrs ordr bdry) acc).s := by
  intro l
  induction l with
  | nil => intro acc hacc; exact hacc
  | cons iT l ih =>
    intro acc hacc
    rw [List.foldl_cons]
    exact ih _ (primStep_inv hmp hnbrs acc iT hacc)

lemma eligNbrs_mask {P : Params} {s0 : CAState ns} {p : Pos} :
    ∀ pr ∈ eligNbrs P s0 p,
      s0.mask (padd p pr.1) ≠ P.bb ∧ s0.mask (padd p pr.1) ≠ P.solid := by
  rintro ⟨del, nm⟩ hpr
  obtain ⟨-, h2, h3, h4⟩ := mem_eligNbrs hpr
  exact ⟨h2 ▸ h3, h2 ▸ h4⟩

lemma map_fst_mask {P : Params} {s0 : CAState ns} {p del : Pos}
    (hd : del ∈ (eligNbrs P s0 p).map Prod.fst) :
    s0.mask (padd p del) ≠ P.bb ∧ s0.mask (padd p del) ≠ P.solid := by
  obtain ⟨pr, hpr, hfst⟩ := List.mem_map.mp hd
  exact hfst ▸ eligNbrs_mask pr hpr

lemma pushCellF_inv {P : Params} {dom : Box} {R : Rng} {s t : CAState ns}
    {p : Pos} (h : pushCellF P dom R s p = .ok t) : PushInv P s t := by
  unfold pushCellF at h
  by_cases hm : s.mask p ≠ P.bb ∧ s.mask p ≠ P.solid
  case neg =>
    rw [if_neg hm] at h
    cases h
    exact pushInv_refl P s
  rw [if_pos hm] at h
  by_cases h1 : s.total p > P.Bmax
  case neg =>
    rw [if_neg h1] at h
    cases h
    exact pushInv_refl P s
  rw [if_pos h1] at h
  by_cases h2 : s.total p - P.Bmax > P.thrd
  case neg =>
    rw [if_neg h2] at h
    cases h
    exact pushInv_refl P s
  rw [if_pos h2] at h
  by_cases h3 : (eligNbrs P s p).length = 0
  case pos =>
    rw [if_pos h3] at h
    cases h
  rw [if_neg h3] at h
  have hfold : PushInv P s (primAll P p (eligNbrs P s p) R.ordr
      (bdryDir P dom p) s (s.total p - P.Bmax) (s.total p)).s :=
    primAll_fold_inv hm eligNbrs_mask _ _ (pushInv_refl P s)
  set acc := primAll P p (eligNbrs P s p) R.ordr (bdryDir P dom p) s
    (s.total p - P.Bmax) (s.total p) with haccdef
  by_cases hchk : acc.chk
  case pos =>
    rw [if_pos hchk] at h
    cases h
    exact hfold
  rw [if_neg hchk] at h
  cases h
  have hne : eligNbrs P s p ≠ [] := fun h0 => h3 (h0 ▸ rfl)
  have hmem := @fbChoiceF_mem ns P acc.s p (eligNbrs P s p) R.r1 R.r2 hne
  have hd0 := map_fst_mask hmem
  have hmask : acc.s.mask = s.mask := hfold.2.1
  refine pushInv_trans hfold (fbXfer_inv _ _ _ ?_ ?_)
  · rw [hmask]; exact hm
  · rw [hmask]; exact hd0

lemma halfPushCellF_inv {P : Params} {dom : Box} {R : Rng} {s t : CAState ns}
    {p : Pos} (h : halfPushCellF P dom R s p = .ok t) : PushInv P s t := by
  unfold halfPushCellF at h
  by_cases hm : s.mask p ≠ P.bb ∧ s.mask p ≠ P.solid ∧ ¬ isPore P (s.mask p) = true
  case neg =>
    rw [if_neg hm] at h
    cases h
    exact pushInv_refl P s
  rw [if_pos hm] at h
  by_cases h1 : s.total p > P.Bmax
  case neg =>
    rw [if_neg h1] at h
    cases h
    exact pushInv_refl P s
  rw [if_pos h1] at h
  by_cases h3 : (eligNbrs P s p).length = 0
  case pos =>
    rw [if_pos h3] at h
    cases h
  rw [if_neg h3] at h
  have hm2 : s.mask p ≠ P.bb ∧ s.mask p ≠ P.solid := ⟨hm.1, hm.2.1⟩
  have hfold : PushInv P s (primAll P p (eligNbrs P s p) R.ordr
      (bdryDir P dom p) s (s.total p * (1 / 2)) (s.total p)).s :=
    primAll_fold_inv hm2 eligNbrs_mask _ _ (pushInv_refl P s)
  set acc := primAll P p (eligNbrs P s p) R.ordr (bdryDir P dom p) s
    (s.total p * (1 / 2)) (s.total p) with haccdef
  have hmask : acc.s.mask = s.mask := hfold.2.1
  by_cases hchk : acc.chk
  case pos =>
    rw [if_pos hchk] at h
    cases h
    refine pushInv_trans hfold
      ⟨rfl, rfl, rfl, rfl, fun q hq j => ?_⟩
    have hqp : q ≠ p := by
      rintro rfl
      rw [hmask] at hq
      rcases hq with hx | hx
      · exact hm.1 hx
      · exact hm.2.1 hx
    have hpz : padd p (0, 0, 0) = p := by
      simp [padd]
    have hqd : q ≠ padd p (0, 0, 0) := by
      rw [hpz]; exact hqp
    exact fbXfer_bio_other _ _ _ _ hqp hqd j
  rw [if_neg hchk] at h
  cases h
  have hne : eligNbrs P s p ≠ [] := fun h0 => h3 (h0 ▸ rfl)
  have hmem := @fbChoiceH_mem ns P acc.s p (eligNbrs P s p) R.r1 R.r2 hne
  have hd0 := map_fst_mask hmem
  refine pushInv_trans hfold (fbXfer_inv _ _ _ ?_ ?_)
  · rw [hmask]; exact hm2
  · rw [hmask]; exact hd0

lemma updateAgeCell_cases (P : Params) (s : CAState ns) (p q : Pos) :
    (updateAgeCell P s p).age q = s.age q ∨
      (updateAgeCell P s p).age q = s.age q + 1 := by
  by_cases hq : q = p
  case neg =>
    left
    unfold updateAgeCell
    split
    · dsimp only
      split
      · simp [if_neg hq]
      · split
        · split
          · simp [if_neg hq]
          · rfl
        · split
          · simp [if_neg hq]
          · rfl
    · rfl
  case pos =>
    subst hq
    unfold updateAgeCell
    split
    · dsimp only
      split
      · next h0 => right; simp [h0]
      · split
        · rename_i hc
          split
          · right; simp [hc.1]
          · left; rfl
        · split
          · right; simp
          · left; rfl
    · left; rfl

lemma ageSweep_mono (P : Params) (dom : Box) (s : CAState ns) (q : Pos) :
    s.age q ≤ (ageSweep P dom s).age q := by
  have h := foldl_rel (f := updateAgeCell P)
    (Q := fun a b => ∀ r : Pos, a.age r ≤ b.age r)
    (fun _ _ => le_refl _)
    (fun a b c h1 h2 r => le_trans (h1 r) (h2 r))
    (fun u v r => by rcases updateAgeCell_cases P u v r with h | h <;> omega)
    dom.cells s
  exact h q

lemma foldl_filter_sum {M : Type} [AddCommMonoid M] {n : ℕ} (f : Fin n → M)
    (pred : Fin n → Prop) [DecidablePred pred] :
    (List.finRange n).foldl (fun a j => if pred j then a + f j else a) 0 =
      ∑ j ∈ Finset.univ.filter pred, f j := by
  have h1 : (fun (a : M) (j : Fin n) => if pred j then a + f j else a) =
      fun a j => a + (if pred j then f j else 0) := by
    funext a j
    split <;> simp
  have h2 : ∀ (l : List (Fin n)) (a : M),
      l.foldl (fun a j => a + (if pred j then f j else 0)) a =
        a + (l.map fun j => if pred j then f j else 0).sum := by
    intro l
    induction l with
    | nil => intro a; simp
    | cons x l ih => intro a; simp [ih, add_assoc]
  rw [h1, h2, zero_add, ← Fin.sum_univ_def, Finset.sum_filter]

/-! Claim theorems. -/

/-- C1: the claim that a complete push+pull cycle conserves the total
biomass over non-excluded cells fails on this input: the boundary cell
(1,0,0) is debited 3/4 by the primary pass (staged into the copy
lattice) and then debited a further 1/4 by the fallback pass, whose
staging OVERWRITES the earlier staged 3/4; the pull pass credits only
the surviving 1/4, so the grid-wide biomass drops from 9/4 to 3/2 —
a loss of 3/4, far above the tolerance. -/
theorem C1_conservation_violated_at_partition_boundary :
    bioSum C1cells C1s = 9 / 4 ∧
    (pushSweepF C1P C1A rng0 C1s).toOption.map
        (fun t => (t.bio (1, 0, 0) 0, t.copy (1, 0, 0) 0, t.sdir (1, 0, 0) 0)) =
      some (1, 1 / 4, 1) ∧
    C1cyc.toOption.map (bioSum C1cells) = some (3 / 2) ∧
    ¬ (9 / 4 - 3 / 2 ≤ C1P.thrd) := by
  with_unfolding_all decide

/-- C2: if the CA convergence loop of complab.cpp terminates without
aborting then, at exit, every cell's value in the total-biomass lattice
is at most `Bmax` plus the tolerance, because the loop guard is exactly
`maxTotal - Bmax > thrd`. -/
theorem C2_loop_exit_capacity_bound (P : Params) (cells : List Pos)
    (step : CAState ns → CAState ns) :
    ∀ (fuel : ℕ) (s t : CAState ns), caLoop P cells step fuel s = some t →
      ∀ p ∈ cells, t.total p ≤ P.Bmax + P.thrd := by
  intro fuel
  induction fuel with
  | zero => intro s t h; cases h
  | succ n ih =>
    intro s t h
    unfold caLoop at h
    split at h
    · exact ih (step s) t h
    · next hguard =>
      cases h
      intro p hp
      have h1 : s.total p ≤ maxTotal cells s := by
        unfold maxTotal
        exact mem_le_foldl_max cells hp 0
      rw [not_lt] at hguard
      linarith

theorem C2_loop_exit_capacity_bound_witness :
    C2s.total (0, 0, 0) ≤ C2P.Bmax + C2P.thrd :=
  C2_loop_exit_capacity_bound C2P C2cells id 1 C2s C2s
    (by with_unfolding_all rfl) (0, 0, 0) (by decide)

/-- C3 counterexample: the claim says a Pore candidate is skipped and
receives no transfer, but on this input the primary pass moves 1/2 into
the Pore neighbor (3,0,0), treating it as empty. -/
theorem C3_counterexample_pore_receives_mass :
    isPore C3P (C3s.mask (3, 0, 0)) = true ∧ C3s.bio (3, 0, 0) 0 = 0 ∧
    (pushCellF C3P C3dom (rng0 (2, 0, 0)) C3s (2, 0, 0)).toOption.map
        (fun t => t.bio (3, 0, 0) 0) = some (1 / 2) := by
  with_unfolding_all decide

/-- C3 amended: during a push sweep (full or half) mass is never
written into a cell classified Solid or Wall; Pore cells may receive
mass (they are treated as empty recipients). -/
theorem C3_push_never_writes_solid_or_wall (P : Params) (dom : Box)
    (R : Pos → Rng) (s t u : CAState ns)
    (hf : pushSweepF P dom R s = .ok t)
    (hh : halfPushSweepF P dom R s = .ok u) :
    (∀ q, (s.mask q = P.bb ∨ s.mask q = P.solid) → ∀ j, t.bio q j = s.bio q j) ∧
    (∀ q, (s.mask q = P.bb ∨ s.mask q = P.solid) → ∀ j, u.bio q j = s.bio q j) := by
  constructor
  · exact (foldlM_ok_rel (pushInv_refl P) (fun _ _ _ h1 h2 => pushInv_trans h1 h2)
      (fun _ _ _ hc => pushCellF_inv hc) dom.cells s t hf).2.2.2.2
  · exact (foldlM_ok_rel (pushInv_refl P) (fun _ _ _ h1 h2 => pushInv_trans h1 h2)
      (fun _ _ _ hc => halfPushCellF_inv hc) dom.cells s u hh).2.2.2.2

theorem C3_push_never_writes_solid_or_wall_witness :
    C3res.bio (1, 0, 0) 0 = C3s.bio (1, 0, 0) 0 ∧
    C3resH.bio (1, 0, 0) 0 = C3s.bio (1, 0, 0) 0 := by
  have h := C3_push_never_writes_solid_or_wall C3P C3dom rng0 C3s C3res C3resH
    (by with_unfolding_all rfl) (by with_unfolding_all rfl)
  exact ⟨h.1 (1, 0, 0) (Or.inr (by decide)) 0, h.2 (1, 0, 0) (Or.inr (by decide)) 0⟩

/-- C4 counterexample: the neighbor (3,0,0) has STRICTLY SMALLER
distance than the source, so the claimed three-tier rule mandates it as
the fallback recipient; yet the full remaining excess 1/2 is handed to
(1,0,0), whose distance is strictly LARGER than the source's (and which
is already at capacity), while (3,0,0) receives nothing — the fallback
never consults the distance field. -/
theorem C4_counterexample_smaller_distance_tier_skipped :
    (pushCellF C4P C4dom (C4R (2, 0, 0)) C4s (2, 0, 0)).toOption.map
        (fun t => (t.bio (1, 0, 0) 0, t.bio (3, 0, 0) 0)) = some (3 / 2, 1) ∧
    C4s.dist (3, 0, 0) < C4s.dist (2, 0, 0) ∧
    C4s.dist (2, 0, 0) < C4s.dist (1, 0, 0) ∧
    C4s.total (3, 0, 0) ≥ C4P.Bmax ∧
    C4s.total (1, 0, 0) ≥ C4P.Bmax := by
  with_unfolding_all decide

/-- C4 amended: the fallback recipient rule has two tiers, not three:
the full push prefers a candidate whose value in the lattice at slot
`length-1` is strictly smaller than the source's and otherwise picks
uniformly among all candidates; the half push merges the strict and
equal tiers (value at most the source's), else uniform.  In every case
the choice is one of the eligible candidates. -/
theorem C4_fallback_tier_rule (P : Params) (s : CAState ns) (p : Pos)
    (nbrs : List (Pos × ℤ)) (r1 r2 : ℕ) (hne : nbrs ≠ []) :
    ((nbrs.filterMap (fun pr =>
        if s.age p > s.age (padd p pr.1) then some pr.1 else none) ≠ [] →
          s.age p > s.age (padd p (fbChoiceF P s p nbrs r1 r2))) ∧
      fbChoiceF P s p nbrs r1 r2 ∈ nbrs.map Prod.fst) ∧
    ((nbrs.filterMap (fun pr =>
        if s.age p ≥ s.age (padd p pr.1) then some pr.1 else none) ≠ [] →
          s.age p ≥ s.age (padd p (fbChoiceH P s p nbrs r1 r2))) ∧
      fbChoiceH P s p nbrs r1 r2 ∈ nbrs.map Prod.fst) :=
  ⟨⟨fun h => fbChoiceF_strict h, fbChoiceF_mem hne⟩,
   ⟨fun h => fbChoiceH_weak h, fbChoiceH_mem hne⟩⟩

theorem C4_fallback_tier_rule_witness :
    fbChoiceF C4P C4ws (2, 0, 0) C4wn 0 0 ∈ C4wn.map Prod.fst :=
  (C4_fallback_tier_rule C4P C4ws (2, 0, 0) C4wn 0 0 (by decide)).1.2

/-- C5 counterexample: a cell with positive excess fully enclosed by
Pore cells does NOT abort — Pore neighbors are eligible recipients, so
the cell has six candidates and the push succeeds. -/
theorem C5_counterexample_pore_enclosed_no_abort :
    ((candidates C5P (2, 0, 0)).all fun d =>
      isPore C5P (C5sPore.mask (padd (2, 0, 0) d))) = true ∧
    C5sPore.total (2, 0, 0) - C5P.Bmax > C5P.thrd ∧
    (pushCellF C5P C5dom (rng0 (2, 0, 0)) C5sPore (2, 0, 0)).toOption.isSome = true := by
  with_unfolding_all decide

/-- C5 amended: the fatal no-receiving-neighbor abort fires exactly
when every candidate neighbor is Solid or Wall (Pore neighbors count as
eligible); in particular a cell at 1000 x Bmax surrounded by Solid
aborts. -/
theorem C5_abort_when_all_neighbors_solid_or_wall (P : Params) (dom : Box)
    (R : Rng) (s : CAState ns) (p : Pos)
    (h1 : s.mask p ≠ P.bb) (h2 : s.mask p ≠ P.solid)
    (h3 : s.total p > P.Bmax) (h4 : s.total p - P.Bmax > P.thrd)
    (h5 : ∀ d ∈ candidates P p,
      s.mask (padd p d) = P.bb ∨ s.mask (padd p d) = P.solid) :
    pushCellF P dom R s p = .error () := by
  have hnil : eligNbrs P s p = [] := by
    unfold eligNbrs
    rw [List.filterMap_eq_nil]
    intro d hd
    rcases h5 d hd with h | h <;> simp [h]
  unfold pushCellF
  dsimp only
  rw [if_pos ⟨h1, h2⟩, if_pos h3, if_pos h4, hnil]
  simp

theorem C5_abort_when_all_neighbors_solid_or_wall_witness :
    pushCellF C5Pw C5domw (rng0 (2, 1, 1)) C5sSolid (2, 1, 1) = .error () :=
  C5_abort_when_all_neighbors_solid_or_wall C5Pw C5domw (rng0 (2, 1, 1))
    C5sSolid (2, 1, 1) (by decide) (by decide) (by with_unfolding_all decide)
    (by with_unfolding_all decide) (by decide)

/-- C6 counterexample: cell (1,1,1) has age 2, positive total, and NO
neighbor with total at or above Bmax, so the claim promotes it
vacuously; the code leaves it at age 2 because its positive-distance
neighbor is below capacity. -/
theorem C6_counterexample_promotion_blocked :
    (updateAgeCell C6P C6s (1, 1, 1)).age (1, 1, 1) = 2 ∧
    C6s.age (1, 1, 1) = 2 ∧ C6s.total (1, 1, 1) > 0 ∧
    ((candidatesNoGap C6P (1, 1, 1)).all fun d =>
      decide (C6s.total (padd (1, 1, 1) d) < C6P.Bmax)) = true := by
  with_unfolding_all decide

/-- C6 amended: an age >= 2 cell with total above the tolerance is
promoted to age+1 if and only if EVERY positive-distance neighbor has
BOTH age at least the cell's AND total at capacity (within
COMPLAB_THRD); otherwise the age is unchanged this pass. -/
theorem C6_age_promotion_rule (P : Params) (s : CAState ns) (p : Pos)
    (hB : s.total p > P.cthrd) (hage : 2 ≤ s.age p) :
    ((updateAgeCell P s p).age p = s.age p + 1 ↔
      ∀ d ∈ candidatesNoGap P p, 0 < s.dist (padd p d) →
        (s.age p ≤ s.age (padd p d) ∧
          s.total (padd p d) - P.Bmax > -P.cthrd)) ∧
    ((¬ ∀ d ∈ candidatesNoGap P p, 0 < s.dist (padd p d) →
        (s.age p ≤ s.age (padd p d) ∧
          s.total (padd p d) - P.Bmax > -P.cthrd)) →
      (updateAgeCell P s p).age p = s.age p) := by
  have h0 : ¬ (s.age p = 0) := by omega
  have h1 : ¬ (s.age p = 1 ∧ s.total p - P.Bmax > -P.cthrd) :=
    fun hc => absurd hc.1 (by omega)
  have hall : (((candidatesNoGap P p).filter fun d =>
        s.dist (padd p d) > 0).all fun d =>
        decide (s.age (padd p d) ≥ s.age p) &&
          decide (s.total (padd p d) - P.Bmax > -P.cthrd)) = true ↔
      ∀ d ∈ candidatesNoGap P p, 0 < s.dist (padd p d) →
        (s.age p ≤ s.age (padd p d) ∧
          s.total (padd p d) - P.Bmax > -P.cthrd) := by
    simp only [List.all_eq_true, List.mem_filter, Bool.and_eq_true,
      decide_eq_true_eq, and_imp]
  unfold updateAgeCell
  rw [if_pos hB]
  dsimp only
  rw [if_neg h0, if_neg h1]
  by_cases hcond : ∀ d ∈ candidatesNoGap P p, 0 < s.dist (padd p d) →
      (s.age p ≤ s.age (padd p d) ∧ s.total (padd p d) - P.Bmax > -P.cthrd)
  · rw [if_pos (hall.mpr hcond)]
    refine ⟨⟨fun _ => hcond, fun _ => by simp⟩, fun hc => absurd hcond hc⟩
  · rw [if_neg (fun h => hcond (hall.mp h))]
    refine ⟨⟨fun heq => absurd heq (by omega), fun hc => absurd hc hcond⟩,
      fun _ => rfl⟩

theorem C6_age_promotion_rule_witness :
    (updateAgeCell C6P C6sw (1, 1, 1)).age (1, 1, 1) = C6sw.age (1, 1, 1) + 1 :=
  (C6_age_promotion_rule C6P C6sw (1, 1, 1) (by with_unfolding_all decide)
    (by with_unfolding_all decide)).1.mpr (by with_unfolding_all decide)

/-- C7 counterexample: when two species (biofilm types 3 and 4) both
contribute to a Pore cell crossing the threshold, the new mask is their
SUM 7 — not the type of a contributing species, not a neighbor's type,
and not the first biofilm type. -/
theorem C7_counterexample_mask_is_sum :
    (updateMaskCell C7P C7bioT (1 / 10) C7s (1, 1, 1)).toOption.map
        (fun t => t.mask (1, 1, 1)) = some 7 ∧
    isPore C7P (C7s.mask (1, 1, 1)) = true ∧
    C7s.bio (1, 1, 1) 0 > C7P.cthrd ∧ C7s.bio (1, 1, 1) 1 > C7P.cthrd ∧
    C7bioT 0 = 3 ∧ C7bioT 1 = 4 ∧ (7 : ℤ) ≠ 3 ∧ (7 : ℤ) ≠ 4 := by
  with_unfolding_all decide

/-- C7 amended: when a Pore cell's accumulated biomass reaches the
threshold, its new mask is the SUM of the biofilm type ids of all
species whose biomass exceeds COMPLAB_THRD (no neighbor scan in this
direction); the process aborts exactly when that sum is not positive. -/
theorem C7_pore_reclass_mask_is_type_sum (P : Params) (bioT : Fin ns → ℤ)
    (thrB : ℚ) (s : CAState ns) (p : Pos)
    (h1 : s.mask p ≠ P.bb) (h2 : s.mask p ≠ P.solid)
    (h3 : isPore P (s.mask p) = true)
    (h4 : thrB ≤ ∑ j ∈ Finset.univ.filter (fun j => s.bio p j > P.cthrd), s.bio p j)
    (h5 : 0 < ∑ j ∈ Finset.univ.filter (fun j => s.bio p j > P.cthrd), bioT j) :
    ∃ t, updateMaskCell P bioT thrB s p = .ok t ∧
      t.mask p = ∑ j ∈ Finset.univ.filter (fun j => s.bio p j > P.cthrd), bioT j := by
  unfold updateMaskCell
  dsimp only
  rw [if_pos ⟨h1, h2⟩]
  rw [foldl_filter_sum (fun j => s.bio p j) (fun j => s.bio p j > P.cthrd),
    foldl_filter_sum bioT (fun j => s.bio p j > P.cthrd)]
  rw [if_neg (fun hc => by rw [h3] at hc; exact absurd hc.1 (by simp)),
    if_pos ⟨h3, h4⟩, if_pos h5]
  refine ⟨_, rfl, ?_⟩
  simp

theorem C7_pore_reclass_mask_is_type_sum_witness :
    ∃ t, updateMaskCell C7P C7bioT (1 / 10) C7s (1, 1, 1) = .ok t ∧
      t.mask (1, 1, 1) = ∑ j ∈ Finset.univ.filter
        (fun j => C7s.bio (1, 1, 1) j > C7P.cthrd), C7bioT j :=
  C7_pore_reclass_mask_is_type_sum C7P C7bioT (1 / 10) C7s (1, 1, 1)
    (by decide) (by decide) (by decide) (by with_unfolding_all decide)
    (by with_unfolding_all decide)

/-- C9: a push sweep (full or half) writes only the per-species biomass
and staging lattices: the total-biomass, mask, age and distance
lattices are identical before and after the sweep, so every headroom or
eligibility test during the sweep reads pre-sweep totals and states. -/
theorem C9_push_sweep_frame (P : Params) (dom : Box) (R : Pos → Rng)
    (s t u : CAState ns)
    (hf : pushSweepF P dom R s = .ok t)
    (hh : halfPushSweepF P dom R s = .ok u) :
    (t.total = s.total ∧ t.mask = s.mask ∧ t.age = s.age ∧ t.dist = s.dist) ∧
    (u.total = s.total ∧ u.mask = s.mask ∧ u.age = s.age ∧ u.dist = s.dist) := by
  have h1 := foldlM_ok_rel (pushInv_refl P) (fun _ _ _ ha hb => pushInv_trans ha hb)
    (fun _ _ _ hc => pushCellF_inv hc) dom.cells s t hf
  have h2 := foldlM_ok_rel (pushInv_refl P) (fun _ _ _ ha hb => pushInv_trans ha hb)
    (fun _ _ _ hc => halfPushCellF_inv hc) dom.cells s u hh
  exact ⟨⟨h1.1, h1.2.1, h1.2.2.1, h1.2.2.2.1⟩, ⟨h2.1, h2.2.1, h2.2.2.1, h2.2.2.2.1⟩⟩

theorem C9_push_sweep_frame_witness :
    C9res.total = C9s.total ∧ C9resH.mask = C9s.mask := by
  have h := C9_push_sweep_frame C9P C9dom rng0 C9s C9res C9resH
    (by with_unfolding_all rfl) (by with_unfolding_all rfl)
  exact ⟨h.1.1, h.2.2.1⟩

/-- C10: one application of the Front-Age update to a cell either
leaves every stored age unchanged or writes exactly the incremented age
of the updated cell (1 for age 0, 2 for age 1, age+1 in general), so
age is monotone non-decreasing across a whole pass. -/
theorem C10_age_monotone (P : Params) (s : CAState ns) (p q : Pos) (dom : Box) :
    ((updateAgeCell P s p).age q = s.age q ∨
      (updateAgeCell P s p).age q = s.age q + 1) ∧
    s.age q ≤ (ageSweep P dom s).age q :=
  ⟨updateAgeCell_cases P s p q, ageSweep_mono P dom s q⟩

lemma primXfer_bio_src {P : Params} {p del : Pos} {pdir : ℤ} {m amt : ℚ}
    {s : CAState ns} (hthrd : P.thrd = 0) (hdel : padd p del ≠ p)
    (hb : ∀ j, 0 ≤ s.bio p j) (hm : 0 < m) (ha0 : 0 ≤ amt) (j : Fin ns) :
    (primXfer P p del pdir m amt s).bio p j =
      s.bio p j - s.bio p j / m * amt := by
  unfold primXfer
  dsimp only
  split
  · rw [if_pos rfl, if_neg (fun hc => hdel hc.2.symm), add_zero]
  · next hns =>
    rw [hthrd] at hns
    have hge : 0 ≤ s.bio p j / m * amt :=
      mul_nonneg (div_nonneg (hb j) (le_of_lt hm)) ha0
    rw [le_antisymm (not_lt.mp hns) hge, sub_zero]

lemma primXfer_srcSum {P : Params} {p del : Pos} {pdir : ℤ} {m amt : ℚ}
    {s : CAState ns} (hthrd : P.thrd = 0) (hdel : padd p del ≠ p)
    (hb : ∀ j, 0 ≤ s.bio p j) (hsum : srcSum s p = m)
    (hm : 0 < m) (ha0 : 0 ≤ amt) :
    srcSum (primXfer P p del pdir m amt s) p = m - amt := by
  unfold srcSum
  rw [Finset.sum_congr rfl
    (fun j _ => primXfer_bio_src hthrd hdel hb hm ha0 j)]
  rw [Finset.sum_sub_distrib]
  have h2 : ∑ j : Fin ns, s.bio p j / m * amt = amt := by
    simp only [div_mul_eq_mul_div]
    rw [← Finset.sum_div, ← Finset.sum_mul]
    have hsum2 : ∑ j : Fin ns, s.bio p j = m := hsum
    rw [hsum2, mul_comm, mul_div_assoc, div_self (ne_of_gt hm), mul_one]
  have hsum2 : ∑ j : Fin ns, s.bio p j = m := hsum
  rw [hsum2, h2]

lemma primXfer_src_nonneg {P : Params} {p del : Pos} {pdir : ℤ} {m amt : ℚ}
    {s : CAState ns} (hthrd : P.thrd = 0) (hdel : padd p del ≠ p)
    (hb : ∀ j, 0 ≤ s.bio p j) (hm : 0 < m) (ha0 : 0 ≤ amt) (ham : amt ≤ m) :
    ∀ j, 0 ≤ (primXfer P p del pdir m amt s).bio p j := by
  intro j
  rw [primXfer_bio_src hthrd hdel hb hm ha0 j]
  have h1 : s.bio p j - s.bio p j / m * amt = s.bio p j * (1 - amt / m) := by
    field_simp
    ring
  rw [h1]
  apply mul_nonneg (hb j)
  rw [sub_nonneg]
  exact (div_le_one hm).mpr ham

lemma fbXfer_srcSum {P : Params} {p del : Pos} {pdir : ℤ} {m amt : ℚ}
    {s : CAState ns} (hdel : padd p del ≠ p)
    (hsum : srcSum s p = m) (hm : m ≠ 0) :
    srcSum (fbXfer P p del pdir m amt s) p = m - amt := by
  unfold srcSum fbXfer
  dsimp only
  have hrw : ∀ j : Fin ns,
      (s.bio p j - (if p = p then s.bio p j / m * amt else 0) +
        (if pdir = 0 ∧ p = padd p del then s.bio p j / m * amt else 0)) =
      s.bio p j - s.bio p j / m * amt := by
    intro j
    rw [if_pos rfl, if_neg (fun hc => hdel hc.2.symm), add_zero]
  rw [Finset.sum_congr rfl (fun j _ => hrw j), Finset.sum_sub_distrib]
  have h2 : ∑ j : Fin ns, s.bio p j / m * amt = amt := by
    simp only [div_mul_eq_mul_div]
    rw [← Finset.sum_div, ← Finset.sum_mul]
    have hsum2 : ∑ j : Fin ns, s.bio p j = m := hsum
    rw [hsum2, mul_comm, mul_div_assoc, div_self hm, mul_one]
  have hsum2 : ∑ j : Fin ns, s.bio p j = m := hsum
  rw [hsum2, h2]

lemma fbXfer_zero_srcSum {P : Params} {p del : Pos} {pdir : ℤ} {m : ℚ}
    {s : CAState ns} :
    srcSum (fbXfer P p del pdir m 0 s) p = srcSum s p := by
  unfold srcSum fbXfer
  dsimp only
  apply Finset.sum_congr rfl
  intro j _
  rw [mul_zero]
  split <;> split <;> ring

lemma primStep_sum_inv {P : Params} {p : Pos} {nbrs : List (Pos × ℤ)}
    {ordr : List ℕ} {bdry : ℤ} {B : ℚ}
    (hthrd : P.thrd = 0) (hB : 0 < B)
    (hnbrs : ∀ pr ∈ nbrs, padd p pr.1 ≠ p)
    (acc : PAcc ns) (iT : ℕ) (hacc : SumInv p B acc) :
    SumInv p B (primStep P p nbrs ordr bdry acc iT) := by
  obtain ⟨hb, hsum, hbmt, hbmd, hchk⟩ := hacc
  unfold primStep
  split
  · exact ⟨hb, hsum, hbmt, hbmd, hchk⟩
  · next hnc =>
    dsimp only
    cases hg : nbrs.get? (if nbrs.length > 1 then ordr.getD iT 0 else 0) with
    | none => exact ⟨hb, hsum, hbmt, hbmd, hchk⟩
    | some pr =>
      obtain ⟨del, nm⟩ := pr
      have hdel : padd p del ≠ p := hnbrs (del, nm) (List.get?_mem hg)
      have hm : 0 < acc.bMt := by rw [hbmt]; linarith
      dsimp only
      generalize (if nm = P.bb ∨ nm = P.solid ∨ isPore P nm = true then (0 : ℚ)
        else acc.s.total (padd p del)) = nbrbMt
      split
      · next hlt =>
        split
        · next hgt =>
          have hhold : 0 < P.Bmax - nbrbMt := by linarith
          have ham : P.Bmax - nbrbMt ≤ acc.bMt := by
            rw [hbmt]; linarith
          refine ⟨primXfer_src_nonneg hthrd hdel hb hm (le_of_lt hhold) ham,
            primXfer_srcSum hthrd hdel hb hsum hm (le_of_lt hhold), ?_, ?_, ?_⟩
          · dsimp only; rw [hbmt]; ring
          · dsimp only; linarith
          · intro hfalse; cases hfalse
        · next hle =>
          have ham : acc.bMd ≤ acc.bMt := by rw [hbmt]; linarith
          refine ⟨primXfer_src_nonneg hthrd hdel hb hm hbmd ham,
            primXfer_srcSum hthrd hdel hb hsum hm hbmd, ?_, le_refl 0, fun _ => rfl⟩
          dsimp only
          rw [hbmt]
          ring
      · exact ⟨hb, hsum, hbmt, hbmd, hchk⟩

lemma primAll_sum_inv {P : Params} {p : Pos} {nbrs : List (Pos × ℤ)}
    {ordr : List ℕ} {bdry : ℤ} {B : ℚ}
    (hthrd : P.thrd = 0) (hB : 0 < B)
    (hnbrs : ∀ pr ∈ nbrs, padd p pr.1 ≠ p) :
    ∀ (l : List ℕ) (acc : PAcc ns), SumInv p B acc →
      SumInv p B (l.foldl (primStep P p nbrs ordr bdry) acc) := by
  intro l
  induction l with
  | nil => intro acc hacc; exact hacc
  | cons iT l ih =>
    intro acc hacc
    rw [List.foldl_cons]
    exact ih _ (primStep_sum_inv hthrd hB hnbrs acc iT hacc)

lemma eligNbrs_padd_ne {P : Params} {s : CAState ns} {p : Pos} :
    ∀ pr ∈ eligNbrs P s p, padd p pr.1 ≠ p := by
  rintro ⟨del, nm⟩ hpr
  exact candidates_padd_ne (mem_eligNbrs hpr).1

/-- C8: under exact arithmetic (tolerance 0) and a consistent total
lattice, a firing cell sheds exactly `total - Bmax` in one full-push
step and exactly `total * 0.5` — half its current total, not half its
excess — in one half-push step, matching `bMd = bMt - Bmax`
(part1.hh line 252) and `bMd = bMt * 0.5` (part1.hh line 492). -/
theorem C8_attempted_shed_amounts (P : Params) (dom : Box) (R : Rng)
    (s : CAState ns) (p : Pos)
    (hthrd : P.thrd = 0) (hBmax : 0 < P.Bmax)
    (hm1 : s.mask p ≠ P.bb) (hm2 : s.mask p ≠ P.solid)
    (hm3 : ¬ isPore P (s.mask p) = true)
    (hcap : s.total p > P.Bmax)
    (hb : ∀ j, 0 ≤ s.bio p j) (hsum : srcSum s p = s.total p)
    (hne : eligNbrs P s p ≠ []) :
    (∃ t, pushCellF P dom R s p = .ok t ∧
      srcSum s p - srcSum t p = s.total p - P.Bmax) ∧
    (∃ u, halfPushCellF P dom R s p = .ok u ∧
      srcSum s p - srcSum u p = s.total p * (1 / 2)) := by
  have hlen : ¬ ((eligNbrs P s p).length = 0) :=
    fun h0 => hne (List.length_eq_zero.mp h0)
  constructor
  · have hinv0 : SumInv p P.Bmax
        (⟨s, s.total p - P.Bmax, s.total p, false⟩ : PAcc ns) :=
      ⟨hb, hsum, by dsimp only; ring, by dsimp only; linarith, fun h => by cases h⟩
    have hinv : SumInv p P.Bmax (primAll P p (eligNbrs P s p) R.ordr
        (bdryDir P dom p) s (s.total p - P.Bmax) (s.total p)) :=
      @primAll_sum_inv ns P p (eligNbrs P s p) R.ordr (bdryDir P dom p)
        P.Bmax hthrd hBmax (eligNbrs_padd_ne (P := P) (s := s))
        (List.range (eligNbrs P s p).length) _ hinv0
    unfold pushCellF
    dsimp only
    rw [if_pos ⟨hm1, hm2⟩, if_pos hcap,
      if_pos (show s.total p - P.Bmax > P.thrd by rw [hthrd]; linarith),
      if_neg hlen]
    obtain ⟨hb2, hsum2, hbmt2, hbmd2, hchk2⟩ := hinv
    by_cases hchk : (primAll P p (eligNbrs P s p) R.ordr (bdryDir P dom p) s
        (s.total p - P.Bmax) (s.total p)).chk
    · rw [if_pos hchk]
      refine ⟨_, rfl, ?_⟩
      rw [hsum, hsum2, hbmt2, hchk2 hchk]
      ring
    · rw [if_neg hchk]
      refine ⟨_, rfl, ?_⟩
      have hdel : padd p (fbChoiceF P (primAll P p (eligNbrs P s p) R.ordr
          (bdryDir P dom p) s (s.total p - P.Bmax) (s.total p)).s p
          (eligNbrs P s p) R.r1 R.r2) ≠ p := by
        obtain ⟨pr, hpr, hfst⟩ := List.mem_map.mp (fbChoiceF_mem hne)
        exact hfst ▸ eligNbrs_padd_ne pr hpr
      rw [hsum, fbXfer_srcSum hdel hsum2
        (by rw [hbmt2]; intro h0; linarith), hbmt2]
      ring
  · have hB2 : 0 < s.total p * (1 / 2) := by
      have h0 : (0 : ℚ) < s.total p := by linarith
      linarith
    have hinv0 : SumInv p (s.total p * (1 / 2))
        (⟨s, s.total p * (1 / 2), s.total p, false⟩ : PAcc ns) :=
      ⟨hb, hsum, by dsimp only; ring, by dsimp only; linarith, fun h => by cases h⟩
    have hinv : SumInv p (s.total p * (1 / 2)) (primAll P p (eligNbrs P s p)
        R.ordr (bdryDir P dom p) s (s.total p * (1 / 2)) (s.total p)) :=
      @primAll_sum_inv ns P p (eligNbrs P s p) R.ordr (bdryDir P dom p)
        (s.total p * (1 / 2)) hthrd hB2 (eligNbrs_padd_ne (P := P) (s := s))
        (List.range (eligNbrs P s p).length) _ hinv0
    unfold halfPushCellF
    dsimp only
    rw [if_pos ⟨hm1, hm2, hm3⟩, if_pos hcap, if_neg hlen]
    obtain ⟨hb2, hsum2, hbmt2, hbmd2, hchk2⟩ := hinv
    by_cases hchk : (primAll P p (eligNbrs P s p) R.ordr (bdryDir P dom p) s
        (s.total p * (1 / 2)) (s.total p)).chk
    · rw [if_pos hchk]
      refine ⟨_, rfl, ?_⟩
      rw [hchk2 hchk, hsum, fbXfer_zero_srcSum, hsum2, hbmt2, hchk2 hchk]
      ring
    · rw [if_neg hchk]
      refine ⟨_, rfl, ?_⟩
      have hdel : padd p (fbChoiceH P (primAll P p (eligNbrs P s p) R.ordr
          (bdryDir P dom p) s (s.total p * (1 / 2)) (s.total p)).s p
          (eligNbrs P s p) R.r1 R.r2) ≠ p := by
        obtain ⟨pr, hpr, hfst⟩ := List.mem_map.mp (fbChoiceH_mem hne)
        exact hfst ▸ eligNbrs_padd_ne pr hpr
      rw [hsum, fbXfer_srcSum hdel hsum2
        (by rw [hbmt2]; intro h0; linarith), hbmt2]
      ring

theorem C8_attempted_shed_amounts_witness :
    (∃ t, pushCellF C8P C8dom (rng0 (2, 0, 0)) C8s (2, 0, 0) = .ok t ∧
      srcSum C8s (2, 0, 0) - srcSum t (2, 0, 0) =
        C8s.total (2, 0, 0) - C8P.Bmax) ∧
    (∃ u, halfPushCellF C8P C8dom (rng0 (2, 0, 0)) C8s (2, 0, 0) = .ok u ∧
      srcSum C8s (2, 0, 0) - srcSum u (2, 0, 0) =
        C8s.total (2, 0, 0) * (1 / 2)) :=
  C8_attempted_shed_amounts C8P C8dom (rng0 (2, 0, 0)) C8s (2, 0, 0)
    (by decide) (by with_unfolding_all decide) (by decide) (by decide)
    (by decide) (by with_unfolding_all decide)
    (by with_unfolding_all decide) (by with_unfolding_all decide)
    (by with_unfolding_all decide)

end CompLaB
